import Mathlib

/-! Shallow embedding of BuildLatex (build_latex/__main__.py), a Markdown to
LaTeX build orchestrator.  External process invocations are modelled as traces
of argument vectors, the process working directory as explicit state, and the
annotation rewrite as an executable model of the Python regular-expression
substitution over ASCII text. -/

/-- Command name LATEX from the source. -/
def LATEX : String := "xelatex"

/-- Command name PANDOC from the source. -/
def PANDOC : String := "pandoc"

/-- Command name BIBER from the source. -/
def BIBER : String := "biber"

/-- Command name BIBTEX from the source. -/
def BIBTEX : String := "bibtex"

/-- Model of join_path (os.path.join) for a directory without trailing slash
and a relative second component, the only way the source uses it. -/
def join_path (a b : String) : String := a ++ "/" ++ b

/-- Model of os.path.basename: the part after the last slash. -/
def basename (s : String) : String :=
  String.mk ((s.data.reverse.takeWhile (fun c => c != '/')).reverse)

/-- Model of os.path.dirname: everything before the last slash, with trailing
slashes stripped from the head unless the head consists only of slashes. -/
def dirname (s : String) : String :=
  let head := (s.data.reverse.dropWhile (fun c => c != '/')).reverse
  if head.all (fun c => c == '/') then String.mk head
  else String.mk ((head.reverse.dropWhile (fun c => c == '/')).reverse)

/-- The user-supplied options of one invocation (the absl flags of the
source, snapshot as an immutable record). -/
structure BuildConfig where
  filename : String
  pandoc : Bool
  metadata : Option String
  template : Option String
  part : Option (List String)
  part_output : Option String
  simple : Bool
  standalone : Bool
  bibtex : Bool
  biblatex : Bool
  highlight : Bool
  output_dir : Option String
  pretty : Bool
  thesis : Bool
  markdown_tex : Bool
  deriving DecidableEq

/-- Result of one shell_command invocation: whether a Python exception
(ProcessFailed, from check_call or check_output) propagated out of the
function, and the process working directory when the call ends. -/
structure ShellResult where
  raised : Bool
  finalCwd : String
  deriving DecidableEq

/-- Model of shell_command (lines 60-81): cwd0 is the working directory on
entry (os.getcwd()), exitCode the exit status of the invoked command.
check_output and check_call raise on a non-zero exit; Popen(shell=True)
followed by wait() and subprocess.call never raise.  The restoring
os.chdir(last_cwd) at the end of the function runs only when the body
neither returned early (the output-capturing branch) nor raised. -/
def shell_command (throw output shell : Bool) (cwd : Option String)
    (exitCode : Nat) (cwd0 : String) : ShellResult :=
  let cur := cwd.getD cwd0
  let restored := if cwd.isSome then cwd0 else cur
  if throw then
    if output then
      { raised := exitCode != 0, finalCwd := cur }
    else if shell then
      { raised := false, finalCwd := restored }
    else if exitCode != 0 then
      { raised := true, finalCwd := cur }
    else
      { raised := false, finalCwd := restored }
  else
    { raised := false, finalCwd := restored }

/-- Argument-vector trace of build_pdf (lines 189-209): each element is the
argv of one shell_command call, in invocation order. -/
def build_pdf (c : BuildConfig) (filename : String) : List (List String) :=
  let tex_filename := filename ++ ".tex"
  let latex_args :=
    (match c.output_dir with
     | some d => ["-output-directory=" ++ d]
     | none => []) ++ ["-interaction=nonstopmode"]
  [LATEX :: latex_args ++ [tex_filename]] ++
  (if c.bibtex then
    [if c.biblatex then [BIBTEX, filename] else [BIBER, filename]] ++
    [LATEX :: latex_args ++ [tex_filename]]
  else []) ++
  [LATEX :: latex_args ++ [tex_filename]]

/-- First token (the program name) of each invocation in a trace. -/
def invokedTools (tr : List (List String)) : List String :=
  tr.filterMap List.head?

/-- The pandoc argument list built in convert_to_tex (lines 128-183),
mirroring the sequence of += updates of the source.  rootDir stands for
ROOT_DIRECTORY, which the source computes from __file__ at runtime. -/
def convert_to_tex_args (rootDir : String) (c : BuildConfig) : List String :=
  let third_party := join_path rootDir "third_party"
  let args : List String := []
  let args := args ++ ["--verbose"]
  let args := args ++ (if c.standalone then ["--standalone"] else [])
  let args := args ++
    (if c.bibtex then
      ["--biblatex"] ++ ["--csl", join_path third_party "ieee.csl"]
    else [])
  let args := args ++
    (if c.thesis then
      ["-V", "geometry:margin=20mm",
       "-V", "mainfont:Times New Roman",
       "-V", "papersize:a4",
       "-V", "classoption:12pt"] ++
      (if c.template = none then
        ["--template", join_path rootDir "thesis-template.tex"]
      else [])
    else [])
  let args := args ++
    (match c.template with
     | some t => ["--template", t]
     | none => [])
  let args := args ++
    (match c.metadata with
     | some m => ["--metadata-file", m]
     | none => [])
  let args := args ++
    (if c.highlight then
      ["--syntax-definition", join_path third_party "typescript.xml",
       "--highlight=tango"]
    else [])
  let args := args ++
    (if c.pretty then
      ["-V", "geometry:margin=2cm",
       "-V", "mainfont:Roboto",
       "-V", "papersize:a4"]
    else [])
  args

/-- The Flag Projector as the spec describes it (section 4.2): one block per
numbered rule, concatenated in the spec's fixed order. -/
def flagProjectorSpec (rootDir : String) (c : BuildConfig) : List String :=
  ["--verbose"]
  ++ (if c.standalone then ["--standalone"] else [])
  ++ (if c.bibtex then
      ["--biblatex", "--csl", join_path (join_path rootDir "third_party") "ieee.csl"]
    else [])
  ++ (if c.thesis then
      ["-V", "geometry:margin=20mm",
       "-V", "mainfont:Times New Roman",
       "-V", "papersize:a4",
       "-V", "classoption:12pt"]
      ++ (if c.template = none then
          ["--template", join_path rootDir "thesis-template.tex"]
        else [])
    else [])
  ++ (match c.template with
     | some t => ["--template", t]
     | none => [])
  ++ (match c.metadata with
     | some m => ["--metadata-file", m]
     | none => [])
  ++ (if c.highlight then
      ["--syntax-definition", join_path (join_path rootDir "third_party") "typescript.xml",
       "--highlight=tango"]
    else [])
  ++ (if c.pretty then
      ["-V", "geometry:margin=2cm",
       "-V", "mainfont:Roboto",
       "-V", "papersize:a4"]
    else [])

/-- The simple derivation performed at the top of main (lines 215-219). -/
def apply_simple (c : BuildConfig) : BuildConfig :=
  if c.simple then
    { c with
      output_dir := some (dirname c.filename)
      standalone := true
      pretty := if c.thesis then c.pretty else true }
  else c

/-- One pipeline step of main: a convert_to_tex call or a build_pdf call. -/
inductive Step where
  | convert (target : String)
  | buildPdf (target : String)
  deriving DecidableEq

/-- The conversion steps main performs, in order (lines 221-229): each part
in list order when the part list is non-empty, otherwise the single filename
when the pandoc flag is set. -/
def convSteps (c : BuildConfig) : List Step :=
  match c.part with
  | some parts =>
    if parts.length > 0 then parts.map Step.convert
    else if c.pandoc then [Step.convert c.filename] else []
  | none => if c.pandoc then [Step.convert c.filename] else []

/-- The full step list of main: the conversion steps, then the unconditional
build_pdf of filename (line 231). -/
def mainSteps (c : BuildConfig) : List Step :=
  convSteps c ++ [Step.buildPdf c.filename]

/-- Sequential execution with fail-stop semantics: steps run in order until
the first whose external process fails, which raises ProcessFailed out of
main; the result is the list of steps actually started, and whether a
failure occurred. -/
def runSeq (fails : Step → Bool) : List Step → List Step × Bool
  | [] => ([], false)
  | s :: rest =>
    if fails s then ([s], true)
    else
      let r := runSeq fails rest
      (s :: r.1, r.2)

/-- The intermediate output path computed at the top of convert_to_tex
(lines 120-126): filename.tex, overridden when FLAGS.part_output is truthy
(a non-empty string) by part_output ++ basename(filename) ++ ".tex", a
plain string concatenation. -/
def tex_output_path (part_output : Option String) (filename : String) : String :=
  let t := filename ++ ".tex"
  match part_output with
  | some p => if p = "" then t else p ++ basename filename ++ ".tex"
  | none => t

/-- A sample configuration with every flag at its CLI default and filename
"main", used to instantiate universally quantified theorems. -/
def sampleConfig : BuildConfig :=
  { filename := "main"
    pandoc := true
    metadata := none
    template := none
    part := none
    part_output := none
    simple := false
    standalone := false
    bibtex := false
    biblatex := false
    highlight := false
    output_dir := none
    pretty := false
    thesis := false
    markdown_tex := true }

/-- The label character class of METADATA_REGEX, [a-zA-Z0-9:]. -/
def labelClass (c : Char) : Bool := c.isAlphanum || c == ':'

/-- The caption character class of METADATA_REGEX over ASCII text, where the
word class is [A-Za-z0-9_]: word characters, parentheses, colon, period and
space. -/
def captionClass (c : Char) : Bool :=
  c.isAlphanum || c == '_' || c == '(' || c == ')' || c == ':' || c == '.' || c == ' '

/-- The class [\s\n] of METADATA_REGEX restricted to ASCII: the characters
the Python whitespace class matches below code point 128. -/
def isSpaceRE (c : Char) : Bool :=
  c == ' ' || c == '\t' || c == '\n' || c == '\r' || c == '\x0b' || c == '\x0c'
    || c == '\x1c' || c == '\x1d' || c == '\x1e' || c == '\x1f'

/-- The literal head of METADATA_REGEX up to the label group. -/
def cmLit : List Char := "\\codeMetadata[".toList

/-- The literal opening delimiter of a Shaded block. -/
def beginShaded : List Char := "\\begin\x7bShaded\x7d".toList

/-- The literal closing delimiter of a Shaded block. -/
def endShaded : List Char := "\\end\x7bShaded\x7d".toList

/-- Strips a literal from the front of a character list, or fails. -/
def dropLit : List Char → List Char → Option (List Char)
  | [], s => some s
  | _ :: _, [] => none
  | p :: ps, c :: cs => if c = p then dropLit ps cs else none

/-- Non-greedy scan for the closing Shaded delimiter: the inner content up
to the first occurrence of the end marker, and the remainder after it.
This is the semantics of the lazily quantified any-character group of
METADATA_REGEX followed by the end literal. -/
def findEnd : List Char → Option (List Char × List Char)
  | [] => none
  | c :: cs =>
    match dropLit endShaded (c :: cs) with
    | some rest => some ([], rest)
    | none =>
      match findEnd cs with
      | some (inner, rest) => some (c :: inner, rest)
      | none => none

/-- One attempt to match METADATA_REGEX at the head of s, returning the
captures (label, caption, body) and the remainder after the match.  A
greedy character-class run followed by a literal character outside that
class coincides with the regex engine's backtracking search, because no
shorter run can make the literal match. -/
def matchAt (s : List Char) : Option (List Char × List Char × List Char × List Char) :=
  match dropLit cmLit s with
  | none => none
  | some s1 =>
    if s1.takeWhile labelClass = [] then none
    else
      match dropLit (']' :: '\x7b' :: []) (s1.dropWhile labelClass) with
      | none => none
      | some s2 =>
        if s2.takeWhile captionClass = [] then none
        else
          match dropLit ('\x7d' :: []) (s2.dropWhile captionClass) with
          | none => none
          | some s3 =>
            if s3.takeWhile isSpaceRE = [] then none
            else
              match dropLit beginShaded (s3.dropWhile isSpaceRE) with
              | none => none
              | some s4 =>
                match findEnd s4 with
                | none => none
                | some (inner, rest) =>
                  some (s1.takeWhile labelClass, s2.takeWhile captionClass,
                    beginShaded ++ inner ++ endShaded, rest)

/-- The replacement template of process_metadata, instantiated with
(body, label, caption) exactly as REPLACEMENT is instantiated with
(match[3], match[1], match[2]) in the source. -/
def REPLACEMENT (body lab cap : List Char) : List Char :=
  "\n    \\begin\x7blisting\x7d\n    ".toList ++ body
  ++ "\\label\x7b".toList ++ lab
  ++ "\x7d\n    \\caption\x7b".toList ++ cap
  ++ "\x7d\n    \\end\x7blisting\x7d\n    ".toList

/-- Left-to-right, non-overlapping replace-all over a character list, as
re.sub performs it: at each position try the pattern; on a match emit the
replacement and continue after the match, otherwise copy one character.
The fuel only bounds recursion depth; every step consumes at least one
character, so fuel equal to the length of the text never runs out. -/
def subMeta : Nat → List Char → List Char
  | 0, s => s
  | _ + 1, [] => []
  | fuel + 1, c :: cs =>
    match matchAt (c :: cs) with
    | some (lab, cap, body, rest) => REPLACEMENT body lab cap ++ subMeta fuel rest
    | none => c :: subMeta fuel cs

/-- Model of process_metadata (lines 97-117) on the file content: the
METADATA_REGEX substitution applied to the whole text. -/
def process_metadata (s : List Char) : List Char := subMeta s.length s

/-- Decides that the two-character sequence backslash-c occurs nowhere in
the list, so METADATA_REGEX cannot begin a match at any position. -/
def noBC : List Char → Bool
  | [] => true
  | [_] => true
  | a :: b :: t => !(a == '\\' && b == 'c') && noBC (b :: t)

/-- A single annotation-plus-Shaded-block occurrence with label L, caption
C and Shaded inner content CODE, separated by one newline, written with the
pattern's literal delimiters. -/
def mkOccurrence (L C CODE : List Char) : List Char :=
  cmLit ++ (L ++ (']' :: '\x7b' ::
    (C ++ ('\x7d' :: '\n' :: (beginShaded ++ (CODE ++ endShaded))))))

/-- Stripping a literal from a text that starts with it yields the rest. -/
theorem dropLit_self_append (p s : List Char) : dropLit p (p ++ s) = some s := by
  induction p with
  | nil => rfl
  | cons a ps ih => simp [dropLit, ih]

/-- The pattern head literal cannot be stripped from a text that does not
start with backslash-c. -/
theorem dropLit_cmLit_eq_none {s : List Char} (h : ∀ u, s ≠ '\\' :: 'c' :: u) :
    dropLit cmLit s = none := by
  have hcm : cmLit = '\\' :: 'c' :: "odeMetadata[".toList := by decide
  rw [hcm]
  match s with
  | [] => rfl
  | [a] =>
    by_cases ha : a = '\\'
    · simp [dropLit, ha]
    · simp [dropLit, ha]
  | a :: b :: t =>
    by_cases ha : a = '\\'
    · by_cases hb : b = 'c'
      · subst ha; subst hb; exact absurd rfl (h t)
      · simp [dropLit, ha, hb]
    · simp [dropLit, ha]

/-- METADATA_REGEX cannot match at a position whose text does not start
with backslash-c. -/
theorem matchAt_eq_none_of_head {s : List Char} (h : ∀ u, s ≠ '\\' :: 'c' :: u) :
    matchAt s = none := by
  simp [matchAt, dropLit_cmLit_eq_none h]

/-- Prepending a non-backslash character preserves freedom from the
backslash-c pair. -/
theorem noBC_cons {a : Char} {l : List Char} (ha : a ≠ '\\') (hl : noBC l = true) :
    noBC (a :: l) = true := by
  match l with
  | [] => rfl
  | b :: t =>
    simp only [noBC, Bool.and_eq_true, Bool.not_eq_true', Bool.and_eq_false_iff]
    exact ⟨Or.inl (by simpa using ha), hl⟩

/-- Prepending any pair other than backslash-c preserves freedom from the
backslash-c pair. -/
theorem noBC_cons_bc {a b : Char} {l : List Char} (hab : (a == '\\' && b == 'c') = false)
    (h : noBC (b :: l) = true) : noBC (a :: b :: l) = true := by
  simp [noBC, hab, h]

/-- Freedom from the backslash-c pair passes to the tail. -/
theorem noBC_tail {a : Char} {l : List Char} (h : noBC (a :: l) = true) :
    noBC l = true := by
  match l with
  | [] => rfl
  | b :: t =>
    simp only [noBC, Bool.and_eq_true] at h
    exact h.2

/-- A backslash-free front extends freedom from the backslash-c pair. -/
theorem noBC_append_left {a b : List Char} (ha : ∀ c ∈ a, c ≠ '\\')
    (hb : noBC b = true) : noBC (a ++ b) = true := by
  induction a with
  | nil => simpa using hb
  | cons x xs ih =>
    have hx : x ≠ '\\' := ha x (List.mem_cons_self x xs)
    exact noBC_cons hx (ih (fun c hc => ha c (List.mem_cons_of_mem x hc)))

/-- In a text free of the backslash-c pair, no tail starts with it. -/
theorem noBC_drop_ne {s : List Char} (h : noBC s = true) :
    ∀ i u, s.drop i ≠ '\\' :: 'c' :: u := by
  induction s with
  | nil => intro i u hq; simp at hq
  | cons a as ih =>
    intro i u hq
    match i with
    | 0 =>
      rw [List.drop_zero] at hq
      simp only [List.cons.injEq] at hq
      obtain ⟨rfl, rfl⟩ := hq
      simp [noBC] at h
    | i + 1 =>
      rw [List.drop_succ_cons] at hq
      exact ih (noBC_tail h) i u hq

/-- dropWhile distributes over an appended tail when it leaves a remainder
on the front part. -/
theorem dropWhile_app_ne_nil {p : Char → Bool} {L : List Char} (r : List Char)
    (h : L.dropWhile p ≠ []) :
    (L ++ r).dropWhile p = L.dropWhile p ++ r := by
  induction L with
  | nil => simp at h
  | cons x xs ih =>
    by_cases hx : p x
    · simp only [List.dropWhile_cons, hx, if_true, List.cons_append] at h ⊢
      exact ih h
    · simp [List.dropWhile_cons, hx]

/-- takeWhile ignores an appended tail when dropWhile leaves a remainder on
the front part. -/
theorem takeWhile_app_ne_nil {p : Char → Bool} {L : List Char} (r : List Char)
    (h : L.dropWhile p ≠ []) :
    (L ++ r).takeWhile p = L.takeWhile p := by
  induction L with
  | nil => simp at h
  | cons x xs ih =>
    by_cases hx : p x
    · simp only [List.dropWhile_cons, hx, if_true] at h
      simp only [List.cons_append, List.takeWhile_cons, hx, if_true]
      rw [ih h]
    · simp [List.takeWhile_cons, hx]

/-- takeWhile over a wholly satisfying front stops exactly at a following
character outside the class. -/
theorem takeWhile_app_all {p : Char → Bool} {L : List Char} {x : Char} (r : List Char)
    (hall : ∀ c ∈ L, p c = true) (hx : p x = false) :
    (L ++ x :: r).takeWhile p = L := by
  induction L with
  | nil => simp [List.takeWhile_cons, hx]
  | cons y ys ih =>
    have hy : p y = true := hall y (List.mem_cons_self y ys)
    simp only [List.cons_append, List.takeWhile_cons, hy, if_true]
    rw [ih (fun c hc => hall c (List.mem_cons_of_mem y hc))]

/-- dropWhile over a wholly satisfying front resumes exactly at a following
character outside the class. -/
theorem dropWhile_app_all {p : Char → Bool} {L : List Char} {x : Char} (r : List Char)
    (hall : ∀ c ∈ L, p c = true) (hx : p x = false) :
    (L ++ x :: r).dropWhile p = x :: r := by
  induction L with
  | nil => simp [List.dropWhile_cons, hx]
  | cons y ys ih =>
    have hy : p y = true := hall y (List.mem_cons_self y ys)
    simp only [List.cons_append, List.dropWhile_cons, hy, if_true]
    exact ih (fun c hc => hall c (List.mem_cons_of_mem y hc))

/-- The first character dropWhile leaves is outside the class. -/
theorem head_dropWhile_false {p : Char → Bool} {L : List Char} {b : Char} {t : List Char}
    (h : L.dropWhile p = b :: t) : p b = false := by
  induction L with
  | nil => simp at h
  | cons x xs ih =>
    by_cases hx : p x
    · rw [List.dropWhile_cons, if_pos hx] at h
      exact ih h
    · rw [List.dropWhile_cons, if_neg hx] at h
      simp only [List.cons.injEq] at h
      obtain ⟨rfl, -⟩ := h
      simpa using hx

/-- The first character dropWhile leaves belongs to the list. -/
theorem mem_of_head_dropWhile {p : Char → Bool} {L : List Char} {b : Char} {t : List Char}
    (h : L.dropWhile p = b :: t) : b ∈ L := by
  induction L with
  | nil => simp at h
  | cons x xs ih =>
    by_cases hx : p x
    · rw [List.dropWhile_cons, if_pos hx] at h
      exact List.mem_cons_of_mem x (ih h)
    · rw [List.dropWhile_cons, if_neg hx] at h
      simp only [List.cons.injEq] at h
      obtain ⟨rfl, -⟩ := h
      exact List.mem_cons_self _ _

/-- A list containing a character outside the class is not fully dropped. -/
theorem dropWhile_ne_nil_of_bad {p : Char → Bool} {L : List Char} {c : Char}
    (hc : c ∈ L) (hpc : p c = false) : L.dropWhile p ≠ [] := by
  induction L with
  | nil => simp at hc
  | cons x xs ih =>
    by_cases hx : p x
    · rw [List.dropWhile_cons, if_pos hx]
      rcases List.mem_cons.mp hc with rfl | hmem
      · rw [hx] at hpc; cases hpc
      · exact ih hmem
    · simp [List.dropWhile_cons, hx]

/-- METADATA_REGEX does not match at the start of an occurrence whose label
contains a character outside its class but no closing bracket, or whose
caption contains a character outside its class but no closing brace. -/
theorem matchAt_mkOccurrence_none {L C CODE : List Char}
    (hLne : ∀ c ∈ L, c ≠ ']')
    (hCne : ∀ c ∈ C, c ≠ '\x7d')
    (hbad : (∃ c ∈ L, labelClass c = false) ∨ (∃ c ∈ C, captionClass c = false)) :
    matchAt (mkOccurrence L C CODE) = none := by
  simp only [mkOccurrence, matchAt, dropLit_self_append]
  by_cases hall : ∀ c ∈ L, labelClass c = true
  · have hCbad : ∃ c ∈ C, captionClass c = false := by
      rcases hbad with ⟨c, hc, hfalse⟩ | h
      · rw [hall c hc] at hfalse; cases hfalse
      · exact h
    have hlb : labelClass ']' = false := by decide
    rw [takeWhile_app_all _ hall hlb, dropWhile_app_all _ hall hlb]
    split
    · rfl
    · have hstep : dropLit (']' :: '\x7b' :: []) (']' :: '\x7b' ::
          (C ++ ('\x7d' :: '\n' :: (beginShaded ++ (CODE ++ endShaded))))) =
          some (C ++ ('\x7d' :: '\n' :: (beginShaded ++ (CODE ++ endShaded)))) :=
        dropLit_self_append (']' :: '\x7b' :: []) _
      simp only [hstep]
      obtain ⟨c0, hc0, hpc0⟩ := hCbad
      have hd : C.dropWhile captionClass ≠ [] := dropWhile_ne_nil_of_bad hc0 hpc0
      obtain ⟨b, t, hshape⟩ := List.exists_cons_of_ne_nil hd
      have hbne : b ≠ '\x7d' := hCne b (mem_of_head_dropWhile hshape)
      rw [dropWhile_app_ne_nil _ hd, hshape]
      split
      · rfl
      · simp [dropLit, hbne]
  · have hLbad : ∃ c ∈ L, labelClass c = false := by
      rcases hbad with h | ⟨c, hc, -⟩
      · exact h
      · push_neg at hall
        obtain ⟨c1, hc1, hne1⟩ := hall
        exact ⟨c1, hc1, by simpa using hne1⟩
    obtain ⟨c0, hc0, hpc0⟩ := hLbad
    have hd : L.dropWhile labelClass ≠ [] := dropWhile_ne_nil_of_bad hc0 hpc0
    obtain ⟨b, t, hshape⟩ := List.exists_cons_of_ne_nil hd
    have hbne : b ≠ ']' := hLne b (mem_of_head_dropWhile hshape)
    rw [dropWhile_app_ne_nil _ hd, hshape]
    split
    · rfl
    · simp [dropLit, hbne]

/-- The substitution is the identity on a text where the pattern matches at
no position. -/
theorem subMeta_eq_self {fuel : Nat} : ∀ {s : List Char},
    (∀ i, matchAt (s.drop i) = none) → subMeta fuel s = s := by
  induction fuel with
  | zero => intro s _; rfl
  | succ n ih =>
    intro s h
    match s with
    | [] => rfl
    | c :: cs =>
      have h0 : matchAt (c :: cs) = none := by
        have := h 0; rwa [List.drop_zero] at this
      simp only [subMeta, h0]
      exact congrArg (c :: ·) (ih (fun i => by
        have := h (i + 1); rwa [List.drop_succ_cons] at this))

/-- The tail of an occurrence built from backslash-free label, caption and
inner content never contains the backslash-c pair. -/
theorem noBC_occTail {L C CODE : List Char} (hL : ∀ c ∈ L, c ≠ '\\')
    (hC : ∀ c ∈ C, c ≠ '\\') (hCODE : ∀ c ∈ CODE, c ≠ '\\') :
    noBC ("codeMetadata[".toList ++ (L ++ (']' :: '\x7b' ::
      (C ++ ('\x7d' :: '\n' :: (beginShaded ++ (CODE ++ endShaded))))))) = true := by
  apply noBC_append_left (by decide)
  apply noBC_append_left hL
  apply noBC_cons (by decide)
  apply noBC_cons (by decide)
  apply noBC_append_left hC
  apply noBC_cons (by decide)
  apply noBC_cons (by decide)
  rw [show beginShaded = '\\' :: 'b' :: "egin\x7bShaded\x7d".toList from by decide]
  show noBC ('\\' :: 'b' :: ("egin\x7bShaded\x7d".toList ++ (CODE ++ endShaded))) = true
  apply noBC_cons_bc (by decide)
  apply noBC_cons (by decide)
  apply noBC_append_left (by decide)
  exact noBC_append_left hCODE (by decide)

/-- Executed steps are among the scheduled steps. -/
theorem runSeq_mem_sub (fails : Step → Bool) (l : List Step) :
    ∀ s ∈ (runSeq fails l).1, s ∈ l := by
  induction l with
  | nil => intro s hs; simp [runSeq] at hs
  | cons x xs ih =>
    intro s hs
    by_cases hx : fails x
    · simp [runSeq, hx] at hs
      simp [hs]
    · simp only [runSeq, hx, if_false, Bool.false_eq_true, List.mem_cons] at hs
      rcases hs with rfl | hs
      · exact List.mem_cons_self s xs
      · exact List.mem_cons_of_mem x (ih s hs)

/-- When some step of the front segment fails, execution never reaches the
appended segment. -/
theorem runSeq_append_of_fail (fails : Step → Bool) {l₁ : List Step} (l₂ : List Step)
    (h : ∃ s ∈ l₁, fails s = true) :
    (runSeq fails (l₁ ++ l₂)).1 = (runSeq fails l₁).1 := by
  induction l₁ with
  | nil => rcases h with ⟨s, hs, -⟩; simp at hs
  | cons x xs ih =>
    by_cases hx : fails x
    · simp [runSeq, hx]
    · have hxs : ∃ s ∈ xs, fails s = true := by
        rcases h with ⟨s, hs, hf⟩
        rcases List.mem_cons.mp hs with rfl | hmem
        · rw [hf] at hx; exact absurd rfl hx
        · exact ⟨s, hmem, hf⟩
      simp [runSeq, hx, ih hxs]

/-- Every conversion step is a convert step of some target. -/
theorem convSteps_all_convert (c : BuildConfig) :
    ∀ s ∈ convSteps c, ∃ t, s = Step.convert t := by
  intro s hs
  unfold convSteps at hs
  rcases hp : c.part with - | parts
  · rw [hp] at hs
    simp only at hs
    split at hs
    · simp at hs; exact ⟨c.filename, hs⟩
    · simp at hs
  · rw [hp] at hs
    simp only at hs
    split at hs
    · rcases List.mem_map.mp hs with ⟨a, -, rfl⟩
      exact ⟨a, rfl⟩
    · split at hs
      · simp at hs; exact ⟨c.filename, hs⟩
      · simp at hs

/-- Claim C1 counterexample: with useBibliography=false the typeset step
invokes the typesetting engine twice, not exactly once as claimed — the
final engine invocation of build_pdf is unconditional. -/
theorem C1_counterexample :
    ¬ (invokedTools (build_pdf sampleConfig "main")).count LATEX = 1 := by
  decide

/-- Claim C1 (amended): with useBibliography=false the typeset step invokes
the typesetting engine exactly twice; with useBibliography=true and
useBiblatexEngine=false it invokes engine, biber, engine, engine — 3
typeset-engine invocations and 1 biber invocation, in that order. -/
theorem C1_typeset_trace (c : BuildConfig) (fn : String) :
    (c.bibtex = false → invokedTools (build_pdf c fn) = [LATEX, LATEX]) ∧
    (c.bibtex = true → c.biblatex = false →
      invokedTools (build_pdf c fn) = [LATEX, BIBER, LATEX, LATEX]) := by
  constructor
  · intro h
    simp [build_pdf, invokedTools, h]
  · intro h1 h2
    simp [build_pdf, invokedTools, h1, h2]

/-- Claim C1 witness: the amended invocation traces at concrete configs. -/
theorem C1_witness :
    invokedTools (build_pdf sampleConfig "main") = [LATEX, LATEX] ∧
    invokedTools (build_pdf { sampleConfig with bibtex := true } "main")
      = [LATEX, BIBER, LATEX, LATEX] := by
  constructor
  · exact (C1_typeset_trace sampleConfig "main").1 rfl
  · exact (C1_typeset_trace { sampleConfig with bibtex := true } "main").2 rfl rfl

/-- Claim C2 counterexample: with a working directory set and a non-zero
exit under default failure semantics, shell_command raises ProcessFailed
and the working directory is left at the requested directory, not restored
to its prior value — there is no enclosing finally. -/
theorem C2_counterexample :
    (shell_command true false false (some "/work") 1 "/orig").raised = true ∧
    ¬ (shell_command true false false (some "/work") 1 "/orig").finalCwd = "/orig" := by
  decide

/-- Claim C2 (amended): with a working directory set, the prior working
directory is restored exactly when the call completes without raising and
without taking the early-returning output-capture branch; when the command
exits non-zero and ProcessFailed is raised, or when output capture is on
under default failure semantics, the working directory stays at the
requested directory. -/
theorem C2_cwd_scope (throw output shell : Bool) (d cwd0 : String) (exitCode : Nat) :
    ((shell_command throw output shell (some d) exitCode cwd0).raised = false →
      (throw && output) = false →
      (shell_command throw output shell (some d) exitCode cwd0).finalCwd = cwd0) ∧
    ((shell_command throw output shell (some d) exitCode cwd0).raised = true ∨
        (throw && output) = true →
      (shell_command throw output shell (some d) exitCode cwd0).finalCwd = d) := by
  cases throw <;> cases output <;> cases shell <;>
    by_cases he : exitCode = 0 <;> simp_all [shell_command]

/-- Claim C2 witness: restoration on clean completion, leakage on failure. -/
theorem C2_witness :
    (shell_command false false false (some "/work") 0 "/orig").finalCwd = "/orig" ∧
    (shell_command true false false (some "/work") 1 "/orig").finalCwd = "/work" := by
  constructor
  · exact (C2_cwd_scope false false false "/work" "/orig" 0).1 (by decide) (by decide)
  · exact (C2_cwd_scope true false false "/work" "/orig" 1).2 (Or.inl (by decide))

/-- Claim C3 counterexample: with part_output "out" and target "d/x" the
intermediate path is "outx.tex", plain concatenation of the configured
value with the basename — not "out/x.tex" joined with a path separator as
claimed. -/
theorem C3_counterexample :
    tex_output_path (some "out") "d/x" = "outx.tex" ∧
    ¬ tex_output_path (some "out") "d/x" = "out" ++ "/" ++ basename "d/x" ++ ".tex" := by
  decide

/-- Claim C3 (amended): with a non-empty part-output value configured the
intermediate file path is the configured value concatenated directly with
basename(target) and ".tex", with no separator inserted; when not
configured the path is target ++ ".tex". -/
theorem C3_output_path (p fn : String) :
    (p ≠ "" → tex_output_path (some p) fn = p ++ basename fn ++ ".tex") ∧
    tex_output_path none fn = fn ++ ".tex" := by
  constructor
  · intro h
    simp [tex_output_path, h]
  · rfl

/-- Claim C3 witness: the concatenated path at a concrete input. -/
theorem C3_witness :
    tex_output_path (some "out") "d/x" = "out" ++ basename "d/x" ++ ".tex" :=
  (C3_output_path "out" "d/x").1 (by decide)

/-- Claim C4: with parts ["a", "b"] and filename "main" the conversion step
runs for "a" then "b" in list order and never for "main", while the typeset
step still targets "main"; with no parts and the converter enabled, the
conversion of "main" precedes the typeset step. -/
theorem C4_parts_mode (c c' : BuildConfig) :
    (c.part = some ["a", "b"] → c.filename = "main" →
      mainSteps c = [Step.convert "a", Step.convert "b", Step.buildPdf "main"]) ∧
    ((c'.part = none ∨ c'.part = some []) → c'.pandoc = true → c'.filename = "main" →
      mainSteps c' = [Step.convert "main", Step.buildPdf "main"]) := by
  constructor
  · intro hp hf
    simp [mainSteps, convSteps, hp, hf]
  · intro hp hpd hf
    rcases hp with hp | hp <;> simp [mainSteps, convSteps, hp, hpd, hf]

/-- Claim C4 witness: both scenarios at concrete configs. -/
theorem C4_witness :
    mainSteps { sampleConfig with part := some ["a", "b"] } =
      [Step.convert "a", Step.convert "b", Step.buildPdf "main"] ∧
    mainSteps sampleConfig = [Step.convert "main", Step.buildPdf "main"] := by
  constructor
  · exact (C4_parts_mode { sampleConfig with part := some ["a", "b"] } sampleConfig).1 rfl rfl
  · exact (C4_parts_mode sampleConfig sampleConfig).2 (Or.inl rfl) rfl rfl

/-- Claim C5: with simple=true the derived configuration has
standalone=true, output_dir=dirname(filename), and pretty=true unless
thesis=true in which case pretty keeps its explicit value; every other
field is unchanged. -/
theorem C5_simple_derivation (c : BuildConfig) (h : c.simple = true) :
    (apply_simple c).standalone = true ∧
    (apply_simple c).output_dir = some (dirname c.filename) ∧
    (apply_simple c).pretty = (if c.thesis then c.pretty else true) ∧
    (apply_simple c).filename = c.filename ∧
    (apply_simple c).pandoc = c.pandoc ∧
    (apply_simple c).metadata = c.metadata ∧
    (apply_simple c).template = c.template ∧
    (apply_simple c).part = c.part ∧
    (apply_simple c).part_output = c.part_output ∧
    (apply_simple c).simple = c.simple ∧
    (apply_simple c).bibtex = c.bibtex ∧
    (apply_simple c).biblatex = c.biblatex ∧
    (apply_simple c).highlight = c.highlight ∧
    (apply_simple c).thesis = c.thesis ∧
    (apply_simple c).markdown_tex = c.markdown_tex := by
  simp [apply_simple, h]

/-- Claim C5 witness: the derivation at a concrete simple config. -/
theorem C5_witness :
    (apply_simple { sampleConfig with simple := true }).standalone = true ∧
    (apply_simple { sampleConfig with simple := true }).output_dir
      = some (dirname "main") := by
  refine ⟨(C5_simple_derivation { sampleConfig with simple := true } rfl).1, ?_⟩
  exact (C5_simple_derivation { sampleConfig with simple := true } rfl).2.1

/-- Claim C6: the projected converter argument list is a deterministic pure
function of the configuration and equals, token for token, the spec's
fixed-order block sequence: verbosity; standalone; bibliography engine plus
citation style; thesis typography plus bundled template only when no
template is set; template; metadata file; syntax definition plus
highlighting style; pretty typography. -/
theorem C6_flag_projection (rootDir : String) (c : BuildConfig) :
    convert_to_tex_args rootDir c = flagProjectorSpec rootDir c := by
  simp [convert_to_tex_args, flagProjectorSpec, List.append_assoc]

/-- Claim C7: on the example annotation input the rewrite produces a
listing block containing the Shaded block verbatim, then the label
directive, then the caption directive, in that structural order, and a
second application of the rewrite is a no-op. -/
theorem C7_annotation_rewrite :
    process_metadata "\\codeMetadata[fig:1]\x7bA title\x7d\n\\begin\x7bShaded\x7d\nCODE\n\\end\x7bShaded\x7d".toList
      = ("\n    \\begin\x7blisting\x7d\n    ".toList
        ++ "\\begin\x7bShaded\x7d\nCODE\n\\end\x7bShaded\x7d".toList
        ++ "\\label\x7bfig:1\x7d".toList
        ++ "\n    ".toList
        ++ "\\caption\x7bA title\x7d".toList
        ++ "\n    \\end\x7blisting\x7d\n    ".toList) ∧
    process_metadata (process_metadata "\\codeMetadata[fig:1]\x7bA title\x7d\n\\begin\x7bShaded\x7d\nCODE\n\\end\x7bShaded\x7d".toList)
      = process_metadata "\\codeMetadata[fig:1]\x7bA title\x7d\n\\begin\x7bShaded\x7d\nCODE\n\\end\x7bShaded\x7d".toList := by
  decide

/-- Claim C8: a shell-interpreter invocation with output capture off waits
but never raises on a non-zero exit, whatever the mustSucceed setting,
while a non-shell invocation with mustSucceed on raises on a non-zero
exit. -/
theorem C8_shell_exit_asymmetry (throw : Bool) (cwd : Option String) (exitCode : Nat)
    (cwd0 : String) :
    (shell_command throw false true cwd exitCode cwd0).raised = false ∧
    (∀ output : Bool, exitCode ≠ 0 →
      (shell_command true output false cwd exitCode cwd0).raised = true) := by
  constructor
  · cases throw <;> simp [shell_command]
  · intro output h
    cases output <;> simp [shell_command, h]

/-- Claim C8 witness: both behaviors at a concrete non-zero exit. -/
theorem C8_witness :
    (shell_command true false true none 7 "/o").raised = false ∧
    (shell_command true false false none 7 "/o").raised = true := by
  constructor
  · exact (C8_shell_exit_asymmetry true none 7 "/o").1
  · exact (C8_shell_exit_asymmetry true none 7 "/o").2 false (by decide)

/-- Claim C9: when some conversion step's process fails, the raised
ProcessFailed aborts the pipeline before the build_pdf step, so the
typesetting engine is never invoked in that build. -/
theorem C9_failure_aborts (c : BuildConfig) (fails : Step → Bool)
    (h : ∃ s ∈ convSteps c, fails s = true) :
    Step.buildPdf c.filename ∉ (runSeq fails (mainSteps c)).1 := by
  intro hmem
  simp only [mainSteps] at hmem
  rw [runSeq_append_of_fail fails _ h] at hmem
  rcases convSteps_all_convert c _ (runSeq_mem_sub fails (convSteps c) _ hmem) with ⟨t, ht⟩
  exact Step.noConfusion ht

/-- Claim C9 witness: a failing conversion of "main" blocks its typeset. -/
theorem C9_witness :
    Step.buildPdf "main" ∉
      (runSeq (fun s => decide (s = Step.convert "main")) (mainSteps sampleConfig)).1 :=
  C9_failure_aborts sampleConfig (fun s => decide (s = Step.convert "main"))
    ⟨Step.convert "main", by decide, by decide⟩

/-- Claim C10 counterexample: an occurrence whose label contains characters
outside alphanumerics and colons is nevertheless matched and rewritten when
the label itself embeds a closing bracket, a caption group, whitespace and
a Shaded block, so the claim fails as stated. -/
theorem C10_counterexample :
    (∃ c ∈ "gl]\x7bgc\x7d \\begin\x7bShaded\x7dx\\end\x7bShaded\x7d".toList,
      labelClass c = false) ∧
    ¬ (process_metadata (mkOccurrence
        "gl]\x7bgc\x7d \\begin\x7bShaded\x7dx\\end\x7bShaded\x7d".toList
        "cap".toList "y".toList)
      = mkOccurrence "gl]\x7bgc\x7d \\begin\x7bShaded\x7dx\\end\x7bShaded\x7d".toList
        "cap".toList "y".toList) := by
  decide

/-- Claim C10 (amended): an annotation-plus-Shaded-block occurrence is left
completely unchanged when its label contains a character outside
alphanumerics and colons or its caption a character outside word
characters, parentheses, colons, periods and spaces, provided the label
contains no closing bracket, the caption no closing brace, and label,
caption and Shaded inner content no backslash. -/
theorem C10_unmatched_occurrence (L C CODE : List Char)
    (hL : ∀ c ∈ L, c ≠ '\\' ∧ c ≠ ']')
    (hC : ∀ c ∈ C, c ≠ '\\' ∧ c ≠ '\x7d')
    (hCODE : ∀ c ∈ CODE, c ≠ '\\')
    (hbad : (∃ c ∈ L, labelClass c = false) ∨ (∃ c ∈ C, captionClass c = false)) :
    process_metadata (mkOccurrence L C CODE) = mkOccurrence L C CODE := by
  simp only [process_metadata]
  apply subMeta_eq_self
  intro i
  match i with
  | 0 =>
    rw [List.drop_zero]
    exact matchAt_mkOccurrence_none (fun c hc => (hL c hc).2) (fun c hc => (hC c hc).2) hbad
  | i + 1 =>
    have hocc : mkOccurrence L C CODE = '\\' :: ("codeMetadata[".toList ++ (L ++ (']' :: '\x7b' ::
        (C ++ ('\x7d' :: '\n' :: (beginShaded ++ (CODE ++ endShaded))))))) := by
      simp only [mkOccurrence]
      rw [show cmLit = '\\' :: "codeMetadata[".toList from by decide]
      exact List.cons_append _ _ _
    rw [hocc, List.drop_succ_cons]
    exact matchAt_eq_none_of_head
      (noBC_drop_ne (noBC_occTail (fun c hc => (hL c hc).1) (fun c hc => (hC c hc).1) hCODE) i)

/-- Claim C10 witness: a hyphenated label leaves the occurrence unchanged. -/
theorem C10_witness :
    process_metadata (mkOccurrence "fig-1".toList "t".toList "x".toList)
      = mkOccurrence "fig-1".toList "t".toList "x".toList :=
  C10_unmatched_occurrence "fig-1".toList "t".toList "x".toList
    (by decide) (by decide) (by decide) (Or.inl (by decide))
